import Mathlib

/-!
Verification of the iMessage relay bot (src/imessage_bot.py) against its
design specification.  The Python source is shallowly embedded: pure helpers
become Lean functions, the mutable module-level state becomes an explicit
`BotState` record threaded through the main-loop step functions, wall-clock
times are integers, the external HTTP backend and the AppleScript send
channel are oracle parameters, and Python's `hash` of the normalized text is
modelled by the normalized text itself (an injective fingerprint).
-/

/-! ### Text normalization: Python `str.strip().lower()` and `str.lstrip('+')` -/

/-- Drop whitespace from both ends of a character list (Python `str.strip()`). -/
def strip_chars (l : List Char) : List Char :=
  ((l.dropWhile Char.isWhitespace).reverse.dropWhile Char.isWhitespace).reverse

/-- Python `s.strip().lower()`. -/
def strip_lower (s : String) : String :=
  String.mk ((strip_chars s.data).map Char.toLower)

/-- Python `s.lstrip('+')`: removes every leading plus character. -/
def lstrip_plus (s : String) : String :=
  String.mk (s.data.dropWhile (· == '+'))

/-! ### Fingerprint cache (`sent_messages_with_time`, lines 123-148) -/

/-- `SENT_MESSAGE_EXPIRY = 60` seconds. -/
def SENT_MESSAGE_EXPIRY : Int := 60

/-- The `sent_messages_with_time` list of `(timestamp, message_hash)` pairs.
The companion `sent_messages` set is always rebuilt from this list before it
is consulted, so the list alone is the state. -/
abbrev SentLog := List (Int × String)

/-- `hash(message.strip().lower())`, with the hash modelled injectively by the
normalized string itself. -/
def message_hash (message : String) : String := strip_lower message

/-- `clean_old_sent_messages` (lines 123-134): keep only entries from the last
`SENT_MESSAGE_EXPIRY` seconds (strict comparison, as in the source). -/
def clean_old_sent_messages (current_time : Int) (log : SentLog) : SentLog :=
  log.filter (fun p => decide (current_time - p.1 < SENT_MESSAGE_EXPIRY))

/-- `is_our_sent_message` (lines 137-141): purge expired entries, then test
membership of the message's fingerprint. -/
def is_our_sent_message (log : SentLog) (now : Int) (message : String) : Bool :=
  (clean_old_sent_messages now log).any (fun p => p.2 == message_hash message)

/-- `track_sent_message` (lines 144-148): append the fingerprint with the
current time. -/
def track_sent_message (log : SentLog) (now : Int) (message : String) : SentLog :=
  log ++ [(now, message_hash message)]

/-! ### Send channel (`send_imessage`, lines 151-180) -/

/-- How the `osascript` subprocess call ends: normally, by the 30s timeout, or
with any other exception. -/
inductive SendOutcome
  | completed
  | sendTimeout
  | sendError
deriving DecidableEq

/-- `send_imessage`: the fingerprint is tracked first, then the transport is
attempted; the boolean result reports transport success. -/
def send_imessage (log : SentLog) (now : Int) (message : String) (r : SendOutcome) :
    SentLog × Bool :=
  (track_sent_message log now message,
   match r with
   | .completed => true
   | .sendTimeout => false
   | .sendError => false)

/-! ### Conversation history and backend call (`get_ai_response`, lines 183-235) -/

inductive Role
  | system
  | user
  | assistant
deriving DecidableEq

structure Turn where
  role : Role
  content : String
deriving DecidableEq

/-- `MAX_HISTORY = 10`. -/
def MAX_HISTORY : Nat := 10

/-- The fixed system turn prepended to every backend request (lines 197-202). -/
def SYSTEM_TURN : Turn :=
  ⟨.system, "You are a helpful AI assistant responding via iMessage. Keep responses concise and conversational. Use emojis sparingly but appropriately."⟩

/-- Outcome of the `requests.post` call: an HTTP response with a status code
and (when the completion text could be extracted from the JSON body) the
generated text, or one of the exception classes the source catches. -/
inductive BackendResult
  | response (status : Nat) (content : Option String)
  | connectionError
  | timedOut
  | otherError
deriving DecidableEq

/-- Lines 193-194: after the user-turn append, if the history exceeds
`MAX_HISTORY * 2` entries keep only the last `MAX_HISTORY * 2` (Python
`history[-MAX_HISTORY * 2:]`). -/
def trim_history (h : List Turn) : List Turn :=
  if MAX_HISTORY * 2 < h.length then h.drop (h.length - MAX_HISTORY * 2) else h

/-- Result of `get_ai_response`: the sender's new history, the returned reply
string, and the `messages` array posted to the backend. -/
structure AIResult where
  history : List Turn
  reply : String
  request : List Turn
deriving DecidableEq

/-- `get_ai_response` (lines 183-235): append the user turn, trim, post
`SYSTEM_TURN ::` history to the backend; on a 200 response with extractable
content append the assistant turn and return it, otherwise return the fixed
error string of the taken branch without touching the history. -/
def get_ai_response (hist : List Turn) (message : String) (backend : BackendResult) :
    AIResult :=
  let hist2 := trim_history (hist ++ [⟨.user, message⟩])
  let messages := SYSTEM_TURN :: hist2
  match backend with
  | .response status content =>
    if status = 200 then
      match content with
      | some t => ⟨hist2 ++ [⟨.assistant, t⟩], t, messages⟩
      | none => ⟨hist2, "Something went wrong. Please try again.", messages⟩
    else
      ⟨hist2, "Sorry, I couldn't process that. Please try again.", messages⟩
  | .connectionError =>
    ⟨hist2, "⚠️ AI server is not running. Please start the Apple Intelligence API.", messages⟩
  | .timedOut =>
    ⟨hist2, "⏱️ Response took too long. Please try again.", messages⟩
  | .otherError =>
    ⟨hist2, "Something went wrong. Please try again.", messages⟩

/-- The failure kinds named by the spec: connection refused, timeout, and a
non-200 HTTP status. -/
def is_backend_failure : BackendResult → Bool
  | .response status _ => decide (status ≠ 200)
  | .connectionError => true
  | .timedOut => true
  | .otherError => false

/-- The fixed reply string each failing branch of `get_ai_response` returns. -/
def failure_reply : BackendResult → String
  | .response _ _ => "Sorry, I couldn't process that. Please try again."
  | .connectionError => "⚠️ AI server is not running. Please start the Apple Intelligence API."
  | .timedOut => "⏱️ Response took too long. Please try again."
  | .otherError => "Something went wrong. Please try again."

/-! ### Contact filter (lines 356-373) -/

/-- Python `sender.strip().lower() if sender else ""` where `sender` is falsy
when it is `None` or the empty string. -/
def python_truthy_norm (sender : Option String) : String :=
  match sender with
  | none => ""
  | some s => if s = "" then "" else strip_lower s

/-- The allow-list test of lines 356-369: the sender matches an entry when the
trimmed lower-cased forms are equal or the plus-stripped forms are equal. -/
def is_allowed (sender : Option String) (allowed_contacts : List String) : Bool :=
  let sender_normalized := python_truthy_norm sender
  let sender_no_plus := lstrip_plus sender_normalized
  allowed_contacts.any (fun allowed =>
    let allowed_normalized := strip_lower allowed
    let allowed_no_plus := lstrip_plus allowed_normalized
    sender_normalized == allowed_normalized || sender_no_plus == allowed_no_plus)

/-- Modelled from the claim's wording, for comparison with `is_allowed`:
stripping exactly one leading plus from the trimmed case-folded form. -/
def claim_strip_one_plus (s : String) : String :=
  match s.data with
  | '+' :: rest => String.mk rest
  | _ => s

/-- Modelled from the claim's wording: normalize by trimming, case-folding and
stripping exactly one leading plus. -/
def claim_normalize (s : String) : String := claim_strip_one_plus (strip_lower s)

/-- Modelled from the claim's wording: membership of the normalized forms,
where normalization strips exactly one leading plus. -/
def claim_is_allowed (sender : Option String) (allowed_contacts : List String) : Bool :=
  allowed_contacts.any (fun allowed =>
    claim_normalize (sender.getD "") == claim_normalize allowed)

/-- The amended description of the filter: membership of the plus-stripped
normalized forms, where all leading plus characters are removed. -/
def amended_is_allowed (sender : Option String) (allowed_contacts : List String) : Bool :=
  allowed_contacts.any (fun allowed =>
    lstrip_plus (python_truthy_norm sender) == lstrip_plus (strip_lower allowed))

/-! ### Message store and cursor reader (lines 62-120) -/

/-- One row of the `message` table with its joined `handle` and `chat`
columns, as selected by the query in `get_recent_messages`. -/
structure MessageRow where
  rowid : Nat
  text : Option String
  is_from_me : Bool
  msg_date : Int
  handle : Option String
  chat_identifier : Option String
deriving DecidableEq

/-- The dictionary built for each fetched row (lines 93-103). -/
structure Msg where
  rowid : Nat
  text : String
  sender : Option String
  chat_id : Option String
deriving DecidableEq

/-- Python `row[4] or row[5]`: the handle id, falling back to the chat
identifier when the handle is `None` or empty. -/
def row_sender (r : MessageRow) : Option String :=
  match r.handle with
  | none => r.chat_identifier
  | some h => if h = "" then r.chat_identifier else some h

/-- The WHERE clause: `ROWID > ?`, non-NULL non-empty text, `is_from_me = 0`. -/
def row_wanted (since_rowid : Nat) (r : MessageRow) : Bool :=
  decide (since_rowid < r.rowid) &&
    (match r.text with
     | none => false
     | some t => decide (t ≠ "")) &&
    !r.is_from_me

/-- Insertion step of the `ORDER BY m.ROWID ASC` sort. -/
def insert_by_rowid (m : MessageRow) : List MessageRow → List MessageRow
  | [] => [m]
  | x :: xs => if m.rowid ≤ x.rowid then m :: x :: xs else x :: insert_by_rowid m xs

/-- `ORDER BY m.ROWID ASC` as an insertion sort. -/
def sort_by_rowid : List MessageRow → List MessageRow
  | [] => []
  | x :: xs => insert_by_rowid x (sort_by_rowid xs)

/-- Build the per-row dictionary (lines 94-102). -/
def to_msg (r : MessageRow) : Msg :=
  ⟨r.rowid, r.text.getD "", row_sender r, r.chat_identifier⟩

/-- `get_recent_messages` (lines 62-106): filter, order ascending by rowid,
`LIMIT 50`, and build the dictionaries. -/
def get_recent_messages (store : List MessageRow) (since_rowid : Nat) : List Msg :=
  ((sort_by_rowid (store.filter (row_wanted since_rowid))).take 50).map to_msg

/-- `get_latest_rowid` (lines 109-120): `SELECT MAX(ROWID) FROM message`,
with `NULL` (empty table) read as 0. -/
def get_latest_rowid (store : List MessageRow) : Nat :=
  store.foldr (fun r acc => max r.rowid acc) 0

/-! ### Response orchestrator (`main`, lines 328-405) -/

/-- The `/clear` confirmation reply (line 382). -/
def CLEAR_REPLY : String := "✨ Conversation cleared! Starting fresh."

/-- The `/help` reply (line 386). -/
def HELP_TEXT : String :=
  "🤖 iMessage AI Bot Commands:\n\n/clear - Reset conversation history\n/help - Show this message"

/-- The module-level mutable state of the loop: the watermark, the processed
rowid set, the per-sender conversation histories (a `defaultdict(list)`), and
the sent-message fingerprint log. -/
structure BotState where
  last_rowid : Nat
  processed_messages : List Nat
  conversation_history : Option String → List Turn
  sent_messages_with_time : SentLog

/-- The environment of one entry's processing: the wall-clock time and how the
backend call and the send call would turn out. -/
structure Oracle where
  now : Int
  backend : BackendResult
  send_result : SendOutcome

/-- How the loop body disposed of one entry. -/
inductive Outcome
  | duplicate
  | selfEcho
  | notAllowed
  | clearCmd
  | helpCmd
  | chat
deriving DecidableEq

/-- Observable trace of one entry: its rowid, the branch taken, the backend
request made (if any) and the texts handed to the send channel. -/
structure EntryResult where
  rowid : Nat
  outcome : Outcome
  request : Option (List Turn)
  sent : List String
deriving DecidableEq

/-- Point update of the `conversation_history` dictionary. -/
def update_history (h : Option String → List Turn) (k : Option String) (v : List Turn) :
    Option String → List Turn :=
  fun k2 => if k2 = k then v else h k2

/-- The loop body for one fetched entry (lines 338-403), in source order:
dedup check and mark, watermark update, loop-suppression check, contact
filter, `/clear` and `/help` commands, then the chat path. -/
def processEntry (allowed_contacts : List String) (st : BotState) (o : Oracle) (m : Msg) :
    BotState × EntryResult :=
  if st.processed_messages.contains m.rowid then
    (st, ⟨m.rowid, .duplicate, none, []⟩)
  else
    let st1 : BotState := { st with
      processed_messages := m.rowid :: st.processed_messages,
      last_rowid := max st.last_rowid m.rowid }
    let cleaned := clean_old_sent_messages o.now st1.sent_messages_with_time
    let st2 : BotState := { st1 with sent_messages_with_time := cleaned }
    if cleaned.any (fun p => p.2 == message_hash m.text) then
      (st2, ⟨m.rowid, .selfEcho, none, []⟩)
    else if !allowed_contacts.isEmpty && !is_allowed m.sender allowed_contacts then
      (st2, ⟨m.rowid, .notAllowed, none, []⟩)
    else if strip_lower m.text == "/clear" then
      let st3 : BotState := { st2 with
        conversation_history := update_history st2.conversation_history m.sender [] }
      let sendres := send_imessage st3.sent_messages_with_time o.now CLEAR_REPLY o.send_result
      ({ st3 with sent_messages_with_time := sendres.1 },
       ⟨m.rowid, .clearCmd, none, [CLEAR_REPLY]⟩)
    else if strip_lower m.text == "/help" then
      let sendres := send_imessage st2.sent_messages_with_time o.now HELP_TEXT o.send_result
      ({ st2 with sent_messages_with_time := sendres.1 },
       ⟨m.rowid, .helpCmd, none, [HELP_TEXT]⟩)
    else
      let ai := get_ai_response (st2.conversation_history m.sender) m.text o.backend
      let st3 : BotState := { st2 with
        conversation_history := update_history st2.conversation_history m.sender ai.history }
      let sendres := send_imessage st3.sent_messages_with_time o.now ai.reply o.send_result
      ({ st3 with sent_messages_with_time := sendres.1 },
       ⟨m.rowid, .chat, some ai.request, [ai.reply]⟩)

/-- Process the entries of one fetched batch in order, collecting the trace. -/
def runEntries (allowed_contacts : List String) :
    BotState → List (Oracle × Msg) → BotState × List EntryResult
  | st, [] => (st, [])
  | st, e :: rest =>
    let step := processEntry allowed_contacts st e.1 e.2
    let restRun := runEntries allowed_contacts step.1 rest
    (restRun.1, step.2 :: restRun.2)

/-- One polling cycle: fetch the batch after the current watermark and process
it; `os i` supplies the environment of the i-th entry. -/
def runCycle (allowed_contacts : List String) (os : Nat → Oracle)
    (store : List MessageRow) (st : BotState) : BotState × List EntryResult :=
  runEntries allowed_contacts st
    ((get_recent_messages store st.last_rowid).enum.map (fun p => (os p.1, p.2)))

/-- A whole run: a sequence of polling cycles, each against a snapshot of the
(append-only) store. -/
def runCycles (allowed_contacts : List String) :
    BotState → List ((Nat → Oracle) × List MessageRow) → BotState × List EntryResult
  | st, [] => (st, [])
  | st, c :: rest =>
    let cyc := runCycle allowed_contacts c.1 c.2 st
    let restRun := runCycles allowed_contacts cyc.1 rest
    (restRun.1, cyc.2 ++ restRun.2)

/-- Startup state (lines 328, 44-53): watermark at the store's maximum rowid,
everything else empty. -/
def initState (store : List MessageRow) : BotState :=
  { last_rowid := get_latest_rowid store,
    processed_messages := [],
    conversation_history := fun _ => [],
    sent_messages_with_time := [] }

/-- The outcomes in which the entry was handed to the backend or to the
command handler. -/
def dispatched : Outcome → Bool
  | .clearCmd => true
  | .helpCmd => true
  | .chat => true
  | _ => false

/-- The rowids of a trace's dispatched entries. -/
def dispatched_ids (trace : List EntryResult) : List Nat :=
  (trace.filter (fun r => dispatched r.outcome)).map (fun r => r.rowid)

/-- Maximum of a list of rowids (0 when empty). -/
def list_max (l : List Nat) : Nat := l.foldr max 0

/-- The history produced by `n` successful exchanges with the same sender,
starting from an empty history. -/
def iter_chat : Nat → List Turn
  | 0 => []
  | n + 1 => (get_ai_response (iter_chat n) "hello" (.response 200 (some "reply"))).history

/-- Demonstration store for the watermark witness: two inbound rows listed out
of order. -/
def watermark_demo_store : List MessageRow :=
  [⟨2, some "b", false, 0, some "s", none⟩, ⟨1, some "a", false, 0, some "s", none⟩]

/-- Demonstration oracle stream for the watermark witness. -/
def watermark_demo_oracle : Nat → Oracle := fun _ => ⟨0, .timedOut, .completed⟩

theorem runEntries_length (a : List String) :
    ∀ (es : List (Oracle × Msg)) (st : BotState),
      ((runEntries a st es).2).length = es.length := by
  intro es
  induction es with
  | nil => intro st; rfl
  | cons e rest ih => intro st; simp [runEntries, ih]

theorem clean_append (now : Int) (l1 l2 : SentLog) :
    clean_old_sent_messages now (l1 ++ l2) =
      clean_old_sent_messages now l1 ++ clean_old_sent_messages now l2 := by
  simp [clean_old_sent_messages, List.filter_append]

/-- C2: a fingerprint recorded at time T suppresses an identical (up to
normalization) inbound message at time T + d iff d is below the TTL; an
expired fingerprint changes nothing about a later lookup. -/
theorem fingerprint_ttl (log : SentLog) (t t2 : String) (T d : Int)
    (hnorm : strip_lower t2 = strip_lower t) :
    (d < SENT_MESSAGE_EXPIRY →
      is_our_sent_message (track_sent_message log T t) (T + d) t2 = true) ∧
    (SENT_MESSAGE_EXPIRY ≤ d →
      is_our_sent_message (track_sent_message log T t) (T + d) t2 =
        is_our_sent_message log (T + d) t2) ∧
    (is_our_sent_message (track_sent_message [] T t) (T + d) t2 = true ↔
      d < SENT_MESSAGE_EXPIRY) := by
  have key : ∀ l : SentLog,
      is_our_sent_message (track_sent_message l T t) (T + d) t2 =
        (is_our_sent_message l (T + d) t2 || decide (d < SENT_MESSAGE_EXPIRY)) := by
    intro l
    simp only [is_our_sent_message, track_sent_message, message_hash, clean_append,
      List.any_append]
    have harith : T + d - T = d := by omega
    simp [clean_old_sent_messages, harith, hnorm]
  refine ⟨fun hd => ?_, fun hd => ?_, ?_⟩
  · simp [key, hd]
  · have : decide (d < SENT_MESSAGE_EXPIRY) = false := by
      simp [SENT_MESSAGE_EXPIRY] at hd ⊢; omega
    simp [key, this]
  · rw [key]
    simp [is_our_sent_message, clean_old_sent_messages]

theorem fingerprint_ttl_witness :
    (strip_lower "HI there! " = strip_lower "Hi there!") ∧
    (((5 : Int) < SENT_MESSAGE_EXPIRY →
      is_our_sent_message (track_sent_message [] 0 "Hi there!") (0 + 5) "HI there! " = true) ∧
    (SENT_MESSAGE_EXPIRY ≤ (5 : Int) →
      is_our_sent_message (track_sent_message [] 0 "Hi there!") (0 + 5) "HI there! " =
        is_our_sent_message [] (0 + 5) "HI there! ") ∧
    (is_our_sent_message (track_sent_message [] 0 "Hi there!") (0 + 5) "HI there! " = true ↔
      (5 : Int) < SENT_MESSAGE_EXPIRY)) :=
  ⟨by decide, fingerprint_ttl [] "Hi there!" "HI there! " 0 5 (by decide)⟩

/-- C9: `send_imessage` records the fingerprint no matter how the transport
call ends, so a failed or timed-out send (result `false`) is still
fingerprinted. -/
theorem send_imessage_always_fingerprints (log : SentLog) (now : Int) (message : String)
    (r : SendOutcome) :
    (now, message_hash message) ∈ (send_imessage log now message r).1 ∧
    ((send_imessage log now message r).2 = false →
      (now, message_hash message) ∈ (send_imessage log now message r).1) ∧
    (send_imessage log now message .sendTimeout).2 = false ∧
    (send_imessage log now message .sendError).2 = false := by
  cases r <;> simp [send_imessage, track_sent_message]

theorem send_imessage_always_fingerprints_witness :
    ((3 : Int), message_hash "Hi!") ∈ (send_imessage [] 3 "Hi!" .sendTimeout).1 ∧
    ((send_imessage [] 3 "Hi!" .sendTimeout).2 = false →
      ((3 : Int), message_hash "Hi!") ∈ (send_imessage [] 3 "Hi!" .sendTimeout).1) ∧
    (send_imessage [] 3 "Hi!" .sendTimeout).2 = false ∧
    (send_imessage [] 3 "Hi!" .sendError).2 = false :=
  send_imessage_always_fingerprints [] 3 "Hi!" .sendTimeout
theorem strip_chars_sublist (l : List Char) : List.Sublist (strip_chars l) l := by
  have h1 : List.Sublist (l.dropWhile Char.isWhitespace) l := List.dropWhile_sublist _
  have h2 : List.Sublist ((l.dropWhile Char.isWhitespace).reverse.dropWhile Char.isWhitespace)
      (l.dropWhile Char.isWhitespace).reverse := List.dropWhile_sublist _
  have h3 := h2.reverse
  rw [List.reverse_reverse] at h3
  exact h3.trans h1

theorem strip_chars_sublist_dropWhile (l : List Char) :
    List.Sublist (strip_chars l) (l.dropWhile Char.isWhitespace) := by
  have h2 : List.Sublist ((l.dropWhile Char.isWhitespace).reverse.dropWhile Char.isWhitespace)
      (l.dropWhile Char.isWhitespace).reverse := List.dropWhile_sublist _
  have h3 := h2.reverse
  rw [List.reverse_reverse] at h3
  exact h3

theorem dropWhile_ws_eq_self_of_strip {l : List Char}
    (h : strip_chars l = l) : l.dropWhile Char.isWhitespace = l := by
  have hsub : List.Sublist (l.dropWhile Char.isWhitespace) l := List.dropWhile_sublist _
  apply hsub.eq_of_length_le
  calc l.length = (strip_chars l).length := by rw [h]
    _ ≤ (l.dropWhile Char.isWhitespace).length := (strip_chars_sublist_dropWhile l).length_le

theorem strip_lower_fixed {y : String} (h : strip_lower y = y) :
    y.data.dropWhile Char.isWhitespace = y.data ∧
    y.data.reverse.dropWhile Char.isWhitespace = y.data.reverse ∧
    y.data.map Char.toLower = y.data := by
  have hd : (strip_chars y.data).map Char.toLower = y.data := congrArg String.data h
  have hlen : (strip_chars y.data).length = y.data.length := by
    have := congrArg List.length hd
    simpa using this
  have hstrip : strip_chars y.data = y.data :=
    (strip_chars_sublist y.data).eq_of_length hlen
  have hmap : y.data.map Char.toLower = y.data := by
    have := hd
    rwa [hstrip] at this
  have hlead : y.data.dropWhile Char.isWhitespace = y.data :=
    dropWhile_ws_eq_self_of_strip hstrip
  refine ⟨hlead, ?_, hmap⟩
  have htr : ((y.data.dropWhile Char.isWhitespace).reverse.dropWhile Char.isWhitespace).reverse
      = y.data := hstrip
  rw [hlead] at htr
  have := congrArg List.reverse htr
  rwa [List.reverse_reverse] at this

theorem dropWhile_append_singleton {p : Char → Bool} {l : List Char} {a : Char}
    (hl : l.dropWhile p = l) (ha : p a = false) :
    (l ++ [a]).dropWhile p = l ++ [a] := by
  cases l with
  | nil => simp [List.dropWhile_cons, ha]
  | cons c rest =>
    have hc : p c = false := by
      by_contra hc
      rw [Bool.not_eq_false] at hc
      rw [List.dropWhile_cons, if_pos hc] at hl
      have hlen := congrArg List.length hl
      have hle := (List.dropWhile_sublist (l := rest) p).length_le
      simp at hlen
      omega
    simp [List.dropWhile_cons, hc]

theorem strip_lower_plus {y : String} (h : strip_lower y = y) :
    strip_lower ("+" ++ y) = "+" ++ y := by
  obtain ⟨hlead, htrail, hmap⟩ := strip_lower_fixed h
  have hplusws : Char.isWhitespace '+' = false := by decide
  have hpluslow : Char.toLower '+' = '+' := by decide
  have hstrip : strip_chars ('+' :: y.data) = '+' :: y.data := by
    unfold strip_chars
    rw [List.dropWhile_cons, if_neg (by simp [hplusws])]
    rw [List.reverse_cons]
    rw [dropWhile_append_singleton htrail hplusws]
    simp
  apply String.ext
  show (strip_chars ("+" ++ y).data).map Char.toLower = ("+" ++ y).data
  have hdata : ("+" ++ y).data = '+' :: y.data := by simp
  rw [hdata, hstrip]
  simp only [List.map_cons, hpluslow, hmap]

theorem lstrip_plus_strip_lower_plus (y : String) :
    lstrip_plus ("+" ++ y) = lstrip_plus y := by
  apply String.ext
  show (("+" ++ y).data).dropWhile (· == '+') = (y.data).dropWhile (· == '+')
  have hdata : ("+" ++ y).data = '+' :: y.data := by simp
  rw [hdata, List.dropWhile_cons]
  simp

theorem append_plus_ne_empty (y : String) : "+" ++ y ≠ "" := by
  intro hcon
  have := congrArg String.data hcon
  simp at this

theorem is_allowed_eq_amended (sender : Option String) (allowed : List String) :
    is_allowed sender allowed = amended_is_allowed sender allowed := by
  simp only [is_allowed, amended_is_allowed]
  induction allowed with
  | nil => rfl
  | cons a rest ih =>
    simp only [List.any_cons]
    rw [ih]
    congr 1
    cases heq : (python_truthy_norm sender == strip_lower a) with
    | false => simp
    | true =>
      have : python_truthy_norm sender = strip_lower a := eq_of_beq heq
      simp [this]

theorem is_allowed_refl (x : String) : is_allowed (some x) [x] = true := by
  by_cases hx : x = ""
  · subst hx; decide
  · simp [is_allowed, python_truthy_norm, hx]

theorem is_allowed_plus_left {y : String} (h : strip_lower y = y) :
    is_allowed (some ("+" ++ y)) [y] = true := by
  have h1 := strip_lower_plus h
  have h2 := lstrip_plus_strip_lower_plus y
  simp [is_allowed, python_truthy_norm, append_plus_ne_empty y, h1, h, h2]

theorem is_allowed_plus_right {y : String} (h : strip_lower y = y) :
    is_allowed (some y) ["+" ++ y] = true := by
  have h1 := strip_lower_plus h
  have h2 := lstrip_plus_strip_lower_plus y
  by_cases hy : y = ""
  · subst hy; decide
  · simp [is_allowed, python_truthy_norm, hy, h1, h, h2]
/-- C5 (counterexample): Python lstrip removes every leading plus character,
so the code filter accepts a doubly-plus-prefixed sender that the claim's
strip-exactly-one normalization rejects. -/
theorem contact_filter_strip_one_counterexample :
    is_allowed (some "++14155551234") ["14155551234"] = true ∧
    claim_is_allowed (some "++14155551234") ["14155551234"] = false :=
  ⟨by decide, by decide⟩

/-- C5 (amended): the filter equals membership of the fully plus-stripped
trimmed case-folded forms (all leading plus characters removed); it is
reflexive, and for normalized identifiers the plus-prefixed and plus-less
forms are interchangeable. -/
theorem contact_filter_normalization (sender : Option String) (allowed : List String)
    (x y : String) (hy : strip_lower y = y) :
    is_allowed sender allowed = amended_is_allowed sender allowed ∧
    is_allowed (some x) [x] = true ∧
    is_allowed (some ("+" ++ y)) [y] = true ∧
    is_allowed (some y) ["+" ++ y] = true :=
  ⟨is_allowed_eq_amended sender allowed, is_allowed_refl x,
   is_allowed_plus_left hy, is_allowed_plus_right hy⟩

theorem contact_filter_normalization_witness :
    strip_lower "1415" = "1415" ∧
    (is_allowed (some "+A") ["b"] = amended_is_allowed (some "+A") ["b"] ∧
     is_allowed (some "Ab") ["Ab"] = true ∧
     is_allowed (some ("+" ++ "1415")) ["1415"] = true ∧
     is_allowed (some "1415") ["+" ++ "1415"] = true) :=
  ⟨by decide, contact_filter_normalization (some "+A") ["b"] "Ab" "1415" (by decide)⟩

/-- C6 (counterexample): with the non-empty allow-list containing just a plus
sign, a message with an absent or empty sender is accepted, because that
entry's plus-stripped normalized form is empty like the sender's. -/
theorem empty_sender_allowed_counterexample :
    (["+"] : List String) ≠ [] ∧
    is_allowed none ["+"] = true ∧
    is_allowed (some "") ["+"] = true :=
  ⟨by decide, by decide, by decide⟩

/-- C6 (amended): provided every allow-list entry keeps a non-empty normalized
form after plus-stripping, a message with an absent or empty sender is never
allowed. -/
theorem empty_sender_rejected (allowed : List String)
    (h : ∀ a ∈ allowed, lstrip_plus (strip_lower a) ≠ "") :
    is_allowed none allowed = false ∧ is_allowed (some "") allowed = false := by
  have hempty : lstrip_plus "" = "" := by decide
  have key : ∀ s : Option String, python_truthy_norm s = "" →
      is_allowed s allowed = false := by
    intro s hs
    simp only [is_allowed, hs]
    rw [List.any_eq_false]
    intro a ha
    have hne := h a ha
    simp only [hempty, Bool.or_eq_true, beq_iff_eq, not_or]
    constructor
    · intro hcon
      apply hne
      rw [← hcon]
      exact hempty
    · intro hcon
      exact hne hcon.symm
  exact ⟨key none rfl, key (some "") rfl⟩

theorem empty_sender_rejected_witness :
    (∀ a ∈ (["+14155551234", "friend@icloud.com"] : List String),
      lstrip_plus (strip_lower a) ≠ "") ∧
    (is_allowed none ["+14155551234", "friend@icloud.com"] = false ∧
     is_allowed (some "") ["+14155551234", "friend@icloud.com"] = false) :=
  ⟨by decide, empty_sender_rejected ["+14155551234", "friend@icloud.com"] (by decide)⟩
theorem failure_reply_eq {b : BackendResult} (hf : is_backend_failure b = true)
    (hist : List Turn) (msg : String) :
    (get_ai_response hist msg b).reply = failure_reply b := by
  cases b with
  | response s c =>
    simp only [is_backend_failure, decide_eq_true_eq] at hf
    simp [get_ai_response, failure_reply, hf]
  | connectionError => rfl
  | timedOut => rfl
  | otherError => simp [is_backend_failure] at hf

/-- C7: command dispatch is a case-insensitive exact match of the trimmed text
against the reserved tokens; `/clear` clears the sender's history, sends and
fingerprints the confirmation reply without any backend request, and any
non-reserved text takes the chat path. -/
theorem command_dispatch (a : List String) (st : BotState) (o : Oracle) (m : Msg)
    (h1 : st.processed_messages.contains m.rowid = false)
    (h2 : is_our_sent_message st.sent_messages_with_time o.now m.text = false)
    (h3 : a = [] ∨ is_allowed m.sender a = true) :
    (strip_lower m.text = "/clear" →
      (processEntry a st o m).2.outcome = .clearCmd ∧
      (processEntry a st o m).2.request = none ∧
      (processEntry a st o m).1.conversation_history m.sender = [] ∧
      (processEntry a st o m).2.sent = [CLEAR_REPLY] ∧
      (o.now, message_hash CLEAR_REPLY) ∈ (processEntry a st o m).1.sent_messages_with_time) ∧
    (strip_lower m.text = "/help" →
      (processEntry a st o m).2.outcome = .helpCmd ∧
      (processEntry a st o m).2.request = none ∧
      (processEntry a st o m).2.sent = [HELP_TEXT]) ∧
    (strip_lower m.text ≠ "/clear" → strip_lower m.text ≠ "/help" →
      (processEntry a st o m).2.outcome = .chat ∧
      (processEntry a st o m).2.request =
        some (SYSTEM_TURN ::
          trim_history (st.conversation_history m.sender ++ [⟨.user, m.text⟩]))) := by
  have h3b : (!a.isEmpty && !is_allowed m.sender a) = false := by
    rcases h3 with h | h
    · subst h; rfl
    · simp [h]
  have h1m : m.rowid ∉ st.processed_messages := by simpa using h1
  simp only [is_our_sent_message] at h2
  refine ⟨fun hc => ?_, fun hh => ?_, fun hnc hnh => ?_⟩
  · have hcb : (strip_lower m.text == "/clear") = true := by simp [hc]
    simp [processEntry, h1m, h2, h3b, hcb, send_imessage, track_sent_message,
      update_history]
  · have hcb : (strip_lower m.text == "/clear") = false := by
      simp only [beq_eq_false_iff_ne, ne_eq, hh]
      decide
    have hhb : (strip_lower m.text == "/help") = true := by simp [hh]
    simp [processEntry, h1m, h2, h3b, hcb, hhb]
  · have hcb : (strip_lower m.text == "/clear") = false := by
      simp [beq_eq_false_iff_ne, hnc]
    have hhb : (strip_lower m.text == "/help") = false := by
      simp [beq_eq_false_iff_ne, hnh]
    cases hb : o.backend with
    | response s c =>
      by_cases hs : s = 200
      · cases c <;> simp [processEntry, h1m, h2, h3b, hcb, hhb, get_ai_response, hb, hs]
      · simp [processEntry, h1m, h2, h3b, hcb, hhb, get_ai_response, hb, hs]
    | connectionError => simp [processEntry, h1m, h2, h3b, hcb, hhb, get_ai_response, hb]
    | timedOut => simp [processEntry, h1m, h2, h3b, hcb, hhb, get_ai_response, hb]
    | otherError => simp [processEntry, h1m, h2, h3b, hcb, hhb, get_ai_response, hb]

theorem command_dispatch_witness :
    ((initState []).processed_messages.contains 1 = false) ∧
    (is_our_sent_message (initState []).sent_messages_with_time 0 " /CLEAR " = false) ∧
    (strip_lower " /CLEAR " = "/clear") ∧
    ((processEntry [] (initState []) ⟨0, .otherError, .completed⟩
        ⟨1, " /CLEAR ", some "a", none⟩).2.outcome = .clearCmd ∧
     (processEntry [] (initState []) ⟨0, .otherError, .completed⟩
        ⟨1, " /CLEAR ", some "a", none⟩).2.request = none ∧
     (processEntry [] (initState []) ⟨0, .otherError, .completed⟩
        ⟨1, " /CLEAR ", some "a", none⟩).1.conversation_history (some "a") = [] ∧
     (processEntry [] (initState []) ⟨0, .otherError, .completed⟩
        ⟨1, " /CLEAR ", some "a", none⟩).2.sent = [CLEAR_REPLY]) :=
  ⟨by decide, by decide, by decide,
   by
    have h := command_dispatch [] (initState []) ⟨0, .otherError, .completed⟩
      ⟨1, " /CLEAR ", some "a", none⟩ (by decide) (by decide) (Or.inl rfl)
    have hc := h.1 (by decide)
    exact ⟨hc.1, hc.2.1, hc.2.2.1, hc.2.2.2.1⟩⟩

/-- C8: every backend failure (connection refused, timeout or non-200 status)
makes `get_ai_response` return that failure's fixed apology string instead of
raising; the orchestrator still sends it and records its fingerprint, and the
cycle proceeds to the remaining entries. -/
theorem backend_failure_handling (a : List String) (st : BotState) (o : Oracle) (m : Msg)
    (rest : List (Oracle × Msg))
    (h1 : st.processed_messages.contains m.rowid = false)
    (h2 : is_our_sent_message st.sent_messages_with_time o.now m.text = false)
    (h3 : a = [] ∨ is_allowed m.sender a = true)
    (h4 : strip_lower m.text ≠ "/clear")
    (h5 : strip_lower m.text ≠ "/help")
    (hf : is_backend_failure o.backend = true) :
    (∀ hist msg, (get_ai_response hist msg o.backend).reply = failure_reply o.backend) ∧
    (processEntry a st o m).2.outcome = .chat ∧
    (processEntry a st o m).2.sent = [failure_reply o.backend] ∧
    (o.now, message_hash (failure_reply o.backend)) ∈
      (processEntry a st o m).1.sent_messages_with_time ∧
    (runEntries a st ((o, m) :: rest)).2.length = rest.length + 1 := by
  have h1m : m.rowid ∉ st.processed_messages := by simpa using h1
  have h3b : (!a.isEmpty && !is_allowed m.sender a) = false := by
    rcases h3 with h | h
    · subst h; rfl
    · simp [h]
  have hcb : (strip_lower m.text == "/clear") = false := by
    simp [beq_eq_false_iff_ne, h4]
  have hhb : (strip_lower m.text == "/help") = false := by
    simp [beq_eq_false_iff_ne, h5]
  simp only [is_our_sent_message] at h2
  have hstep : processEntry a st o m =
      (⟨max st.last_rowid m.rowid, m.rowid :: st.processed_messages,
        update_history st.conversation_history m.sender
          (get_ai_response (st.conversation_history m.sender) m.text o.backend).history,
        track_sent_message (clean_old_sent_messages o.now st.sent_messages_with_time) o.now
          (get_ai_response (st.conversation_history m.sender) m.text o.backend).reply⟩,
       ⟨m.rowid, .chat,
        some (get_ai_response (st.conversation_history m.sender) m.text o.backend).request,
        [(get_ai_response (st.conversation_history m.sender) m.text o.backend).reply]⟩) := by
    simp [processEntry, h1m, h2, h3b, hcb, hhb, send_imessage]
  have hrep := failure_reply_eq hf (st.conversation_history m.sender) m.text
  refine ⟨fun hist msg => failure_reply_eq hf hist msg, ?_, ?_, ?_, ?_⟩
  · rw [hstep]
  · rw [hstep]
    simp [hrep]
  · rw [hstep]
    simp [track_sent_message, hrep]
  · exact runEntries_length a ((o, m) :: rest) st

theorem backend_failure_handling_witness :
    ((initState []).processed_messages.contains 1 = false) ∧
    (is_our_sent_message (initState []).sent_messages_with_time 0 "hello" = false) ∧
    (strip_lower "hello" ≠ "/clear") ∧
    (strip_lower "hello" ≠ "/help") ∧
    (is_backend_failure BackendResult.timedOut = true) ∧
    ((get_ai_response [] "hi" BackendResult.timedOut).reply =
        failure_reply BackendResult.timedOut ∧
     (processEntry [] (initState []) ⟨0, .timedOut, .completed⟩
        ⟨1, "hello", some "a", none⟩).2.outcome = .chat ∧
     (processEntry [] (initState []) ⟨0, .timedOut, .completed⟩
        ⟨1, "hello", some "a", none⟩).2.sent = [failure_reply BackendResult.timedOut] ∧
     ((0 : Int), message_hash (failure_reply BackendResult.timedOut)) ∈
       (processEntry [] (initState []) ⟨0, .timedOut, .completed⟩
          ⟨1, "hello", some "a", none⟩).1.sent_messages_with_time ∧
     (runEntries [] (initState [])
        [(⟨0, .timedOut, .completed⟩, ⟨1, "hello", some "a", none⟩),
         (⟨1, .timedOut, .completed⟩, ⟨2, "again", some "a", none⟩)]).2.length = 1 + 1) :=
  ⟨by decide, by decide, by decide, by decide, by decide,
   by
    have h := backend_failure_handling [] (initState []) ⟨0, .timedOut, .completed⟩
      ⟨1, "hello", some "a", none⟩
      [(⟨1, .timedOut, .completed⟩, ⟨2, "again", some "a", none⟩)]
      (by decide) (by decide) (Or.inl rfl) (by decide) (by decide) (by decide)
    exact ⟨h.1 [] "hi", h.2.1, h.2.2.1, h.2.2.2.1, h.2.2.2.2⟩⟩
theorem trim_history_append_user (hist : List Turn) (u : Turn) :
    trim_history (hist ++ [u]) = hist.drop (hist.length + 1 - MAX_HISTORY * 2) ++ [u] := by
  unfold trim_history
  simp only [List.length_append, List.length_cons, List.length_nil]
  by_cases hlen : MAX_HISTORY * 2 < hist.length + 1
  · rw [if_pos (by simpa using hlen)]
    have hk : hist.length + 1 - MAX_HISTORY * 2 ≤ hist.length := by
      simp only [MAX_HISTORY] at *
      omega
    rw [List.drop_append_of_le_length hk]
  · rw [if_neg (by simpa using hlen)]
    have hz : hist.length + 1 - MAX_HISTORY * 2 = 0 := by omega
    rw [hz, List.drop_zero]

theorem trim_history_length_le (l : List Turn) :
    (trim_history l).length ≤ MAX_HISTORY * 2 := by
  unfold trim_history
  split
  · rename_i h
    simp only [List.length_drop]
    omega
  · rename_i h
    omega

theorem trim_history_suffix (l : List Turn) : (trim_history l).IsSuffix l := by
  unfold trim_history
  split
  · exact List.drop_suffix _ _
  · exact List.suffix_refl l

theorem get_ai_response_history_length (hist : List Turn) (msg : String)
    (b : BackendResult) :
    (get_ai_response hist msg b).history.length ≤ MAX_HISTORY * 2 + 1 := by
  have htrim := trim_history_length_le (hist ++ [⟨.user, msg⟩])
  cases b with
  | response s c =>
    by_cases hs : s = 200
    · cases c
      · simp only [get_ai_response, hs, if_true, if_pos]
        omega
      · simp only [get_ai_response, hs, if_true, if_pos, List.length_append,
          List.length_cons, List.length_nil]
        omega
    · simp only [get_ai_response, if_neg hs]
      omega
  | connectionError =>
    simp only [get_ai_response]
    omega
  | timedOut =>
    simp only [get_ai_response]
    omega
  | otherError =>
    simp only [get_ai_response]
    omega

theorem processEntry_history_cases (a : List String) (st : BotState) (o : Oracle) (m : Msg) :
    (processEntry a st o m).1.conversation_history = st.conversation_history ∨
    (processEntry a st o m).1.conversation_history =
      update_history st.conversation_history m.sender [] ∨
    (processEntry a st o m).1.conversation_history =
      update_history st.conversation_history m.sender
        (get_ai_response (st.conversation_history m.sender) m.text o.backend).history := by
  unfold processEntry
  repeat' (first | split | dsimp only)
  all_goals first
    | (left; rfl)
    | (right; left; rfl)
    | (right; right; rfl)

theorem processEntry_history_le (a : List String) (st : BotState) (o : Oracle) (m : Msg)
    (hb : ∀ k, (st.conversation_history k).length ≤ MAX_HISTORY * 2 + 1) :
    ∀ k, ((processEntry a st o m).1.conversation_history k).length ≤ MAX_HISTORY * 2 + 1 := by
  intro k
  rcases processEntry_history_cases a st o m with h | h | h <;> rw [h]
  · exact hb k
  · dsimp only [update_history]
    split
    · simp
    · exact hb k
  · dsimp only [update_history]
    split
    · exact get_ai_response_history_length _ _ _
    · exact hb k

theorem runEntries_history_le (a : List String) :
    ∀ (es : List (Oracle × Msg)) (st : BotState),
      (∀ k, (st.conversation_history k).length ≤ MAX_HISTORY * 2 + 1) →
      ∀ k, ((runEntries a st es).1.conversation_history k).length ≤ MAX_HISTORY * 2 + 1 := by
  intro es
  induction es with
  | nil => intro st hb k; exact hb k
  | cons e rest ih =>
    intro st hb k
    exact ih (processEntry a st e.1 e.2).1 (processEntry_history_le a st e.1 e.2 hb) k

theorem runCycles_history_le (a : List String) :
    ∀ (cycles : List ((Nat → Oracle) × List MessageRow)) (st : BotState),
      (∀ k, (st.conversation_history k).length ≤ MAX_HISTORY * 2 + 1) →
      ∀ k, ((runCycles a st cycles).1.conversation_history k).length ≤ MAX_HISTORY * 2 + 1 := by
  intro cycles
  induction cycles with
  | nil => intro st hb k; exact hb k
  | cons c rest ih =>
    intro st hb k
    exact ih (runCycle a c.1 c.2 st).1 (runEntries_history_le a _ st hb) k

theorem processEntry_clear_empties (a : List String) (st : BotState) (o : Oracle) (m : Msg) :
    (processEntry a st o m).2.outcome = .clearCmd →
      (processEntry a st o m).1.conversation_history m.sender = [] := by
  unfold processEntry
  repeat' (first | split | dsimp only)
  all_goals intro h
  all_goals try exact absurd h (by decide)
  all_goals simp [update_history]

/-- C1 (counterexample): after the assistant-turn append of the eleventh
successful exchange the stored history holds 21 turns, exceeding the
2 × MAX_HISTORY cap, because `get_ai_response` trims only after the user-turn
append and not after the assistant-turn append. -/
theorem history_cap_counterexample :
    MAX_HISTORY * 2 < (iter_chat 11).length ∧ (iter_chat 11).length = 21 :=
  ⟨by decide, by decide⟩

/-- C1 (amended): after the user-turn append with its eviction the history
never exceeds 2 × MAX_HISTORY; the assistant-turn append can push it to at
most 2 × MAX_HISTORY + 1, a bound every reachable state of the loop obeys;
eviction keeps a suffix (chronological order preserved); and the `/clear`
branch resets the sender's history to empty. -/
theorem history_cap (hist : List Turn) (msg : String) (b : BackendResult)
    (a : List String) (st : BotState) (o : Oracle) (m : Msg) (k : Option String)
    (store : List MessageRow) (cycles : List ((Nat → Oracle) × List MessageRow)) :
    (trim_history (hist ++ [⟨.user, msg⟩])).length ≤ MAX_HISTORY * 2 ∧
    (get_ai_response hist msg b).history.length ≤ MAX_HISTORY * 2 + 1 ∧
    (trim_history (hist ++ [⟨.user, msg⟩])).IsSuffix (hist ++ [⟨.user, msg⟩]) ∧
    ((runCycles a (initState store) cycles).1.conversation_history k).length ≤
      MAX_HISTORY * 2 + 1 ∧
    ((processEntry a st o m).2.outcome = .clearCmd →
      (processEntry a st o m).1.conversation_history m.sender = []) :=
  ⟨trim_history_length_le _,
   get_ai_response_history_length hist msg b,
   trim_history_suffix _,
   runCycles_history_le a cycles (initState store) (fun _ => by simp [initState]) k,
   processEntry_clear_empties a st o m⟩

theorem history_cap_witness :
    (trim_history ([] ++ [⟨.user, "hi"⟩])).length ≤ MAX_HISTORY * 2 ∧
    (get_ai_response [] "hi" .timedOut).history.length ≤ MAX_HISTORY * 2 + 1 ∧
    (trim_history ([] ++ [⟨.user, "hi"⟩])).IsSuffix ([] ++ [⟨.user, "hi"⟩]) ∧
    ((runCycles [] (initState []) []).1.conversation_history none).length ≤
      MAX_HISTORY * 2 + 1 ∧
    ((processEntry [] (initState []) ⟨0, .otherError, .completed⟩
        ⟨1, "/clear", some "a", none⟩).2.outcome = .clearCmd →
      (processEntry [] (initState []) ⟨0, .otherError, .completed⟩
        ⟨1, "/clear", some "a", none⟩).1.conversation_history (some "a") = []) :=
  history_cap [] "hi" .timedOut [] (initState []) ⟨0, .otherError, .completed⟩
    ⟨1, "/clear", some "a", none⟩ none [] []

/-- C10 (counterexample): with a history already at the 2 × MAX_HISTORY cap
(reachable after ten successful exchanges), a failed backend call drops the
oldest turn while appending the user turn, so the history after the failure
is not the previous history plus exactly the one user turn. -/
theorem failed_call_history_counterexample :
    (iter_chat 10).length = MAX_HISTORY * 2 ∧
    (get_ai_response (iter_chat 10) "msg" .timedOut).history ≠
      iter_chat 10 ++ [⟨.user, "msg"⟩] :=
  ⟨by decide, by decide⟩

/-- C10 (amended): `get_ai_response` appends the user turn before the backend
request (the request is the system turn followed by the capped history ending
in that user turn); the assistant turn is appended exactly on a usable 200
response; on failure the apology is not recorded and the history is the last
2 × MAX_HISTORY entries of the prior history plus the user turn, which is
exactly prior-plus-user whenever the prior history is below the cap. -/
theorem get_ai_response_history_shape (hist : List Turn) (msg : String)
    (b : BackendResult) (t : String) :
    (get_ai_response hist msg b).request =
      SYSTEM_TURN :: (hist.drop (hist.length + 1 - MAX_HISTORY * 2) ++ [⟨.user, msg⟩]) ∧
    (b = .response 200 (some t) →
      (get_ai_response hist msg b).history =
        (hist.drop (hist.length + 1 - MAX_HISTORY * 2) ++ [⟨.user, msg⟩]) ++
          [⟨.assistant, t⟩]) ∧
    ((∀ s, b ≠ .response 200 (some s)) →
      (get_ai_response hist msg b).history =
        hist.drop (hist.length + 1 - MAX_HISTORY * 2) ++ [⟨.user, msg⟩]) ∧
    (hist.length < MAX_HISTORY * 2 →
      hist.drop (hist.length + 1 - MAX_HISTORY * 2) ++ [⟨.user, msg⟩] =
        hist ++ [⟨.user, msg⟩]) := by
  have htrim := trim_history_append_user hist (⟨.user, msg⟩ : Turn)
  refine ⟨?_, fun hb => ?_, fun hb => ?_, fun hlt => ?_⟩
  · cases hb : b with
    | response s c =>
      by_cases hs : s = 200
      · cases c <;> simp [get_ai_response, hs, htrim]
      · simp [get_ai_response, hs, htrim]
    | connectionError => simp [get_ai_response, htrim]
    | timedOut => simp [get_ai_response, htrim]
    | otherError => simp [get_ai_response, htrim]
  · subst hb
    simp [get_ai_response, htrim]
  · cases hb2 : b with
    | response s c =>
      by_cases hs : s = 200
      · cases c with
        | none => simp [get_ai_response, hs, htrim]
        | some s2 => exact absurd (hs ▸ hb2 ▸ rfl) (hb s2)
      · simp [get_ai_response, hs, htrim]
    | connectionError => simp [get_ai_response, htrim]
    | timedOut => simp [get_ai_response, htrim]
    | otherError => simp [get_ai_response, htrim]
  · have hz : hist.length + 1 - MAX_HISTORY * 2 = 0 := by
      simp only [MAX_HISTORY] at *
      omega
    rw [hz, List.drop_zero]

theorem get_ai_response_history_shape_witness :
    ((get_ai_response [] "hi" .timedOut).request =
      SYSTEM_TURN :: (([] : List Turn).drop (0 + 1 - MAX_HISTORY * 2) ++ [⟨.user, "hi"⟩]) ∧
     (get_ai_response [] "hi" .timedOut).history =
      ([] : List Turn).drop (0 + 1 - MAX_HISTORY * 2) ++ [⟨.user, "hi"⟩]) ∧
    (get_ai_response [] "hi" (.response 200 (some "ok"))).history =
      (([] : List Turn).drop (0 + 1 - MAX_HISTORY * 2) ++ [⟨.user, "hi"⟩]) ++
        [⟨.assistant, "ok"⟩] :=
  ⟨⟨(get_ai_response_history_shape [] "hi" .timedOut "ok").1,
    (get_ai_response_history_shape [] "hi" .timedOut "ok").2.2.1
      (fun s => by simp)⟩,
   (get_ai_response_history_shape [] "hi" (.response 200 (some "ok")) "ok").2.1 rfl⟩
theorem processEntry_processed_eq (a : List String) (st : BotState) (o : Oracle) (m : Msg) :
    (processEntry a st o m).1.processed_messages =
      if st.processed_messages.contains m.rowid then st.processed_messages
      else m.rowid :: st.processed_messages := by
  unfold processEntry
  repeat' (first | split | dsimp only)

theorem processEntry_rowid (a : List String) (st : BotState) (o : Oracle) (m : Msg) :
    (processEntry a st o m).2.rowid = m.rowid := by
  unfold processEntry
  repeat' (first | split | dsimp only)

theorem processEntry_mem_processed (a : List String) (st : BotState) (o : Oracle) (m : Msg) :
    m.rowid ∈ (processEntry a st o m).1.processed_messages := by
  rw [processEntry_processed_eq]
  split
  · rename_i h
    simpa using h
  · exact List.mem_cons_self _ _

theorem processEntry_processed_mono (a : List String) (st : BotState) (o : Oracle) (m : Msg)
    {x : Nat} (hx : x ∈ st.processed_messages) :
    x ∈ (processEntry a st o m).1.processed_messages := by
  rw [processEntry_processed_eq]
  split
  · exact hx
  · exact List.mem_cons_of_mem _ hx

theorem processEntry_dispatched_fresh (a : List String) (st : BotState) (o : Oracle) (m : Msg)
    (hd : dispatched (processEntry a st o m).2.outcome = true) :
    m.rowid ∉ st.processed_messages := by
  intro hmem
  have hc : st.processed_messages.contains m.rowid = true := by simpa using hmem
  unfold processEntry at hd
  rw [if_pos hc] at hd
  simp [dispatched] at hd

theorem dispatched_ids_cons (r : EntryResult) (tr : List EntryResult) :
    dispatched_ids (r :: tr) =
      if dispatched r.outcome then r.rowid :: dispatched_ids tr else dispatched_ids tr := by
  unfold dispatched_ids
  rw [List.filter_cons]
  split
  · simp
  · rfl

theorem dispatched_ids_append (tr1 tr2 : List EntryResult) :
    dispatched_ids (tr1 ++ tr2) = dispatched_ids tr1 ++ dispatched_ids tr2 := by
  unfold dispatched_ids
  rw [List.filter_append, List.map_append]

theorem runEntries_dispatch_inv (a : List String) :
    ∀ (es : List (Oracle × Msg)) (st : BotState),
      (∀ x ∈ st.processed_messages, x ∈ (runEntries a st es).1.processed_messages) ∧
      (∀ i ∈ dispatched_ids (runEntries a st es).2,
        i ∉ st.processed_messages ∧ i ∈ (runEntries a st es).1.processed_messages) ∧
      (dispatched_ids (runEntries a st es).2).Nodup ∧
      (∀ r ∈ (runEntries a st es).2, r.rowid ∈ (runEntries a st es).1.processed_messages) := by
  intro es
  induction es with
  | nil =>
    intro st
    refine ⟨fun x hx => hx, fun i hi => absurd hi (by simp [runEntries, dispatched_ids]), by
      simp [runEntries, dispatched_ids], fun r hr => absurd hr (by simp [runEntries])⟩
  | cons e rest ih =>
    intro st
    set step := processEntry a st e.1 e.2 with hstep
    obtain ⟨ihmono, ihfresh, ihnodup, ihmem⟩ := ih step.1
    have hmono : ∀ x ∈ st.processed_messages,
        x ∈ (runEntries a st (e :: rest)).1.processed_messages := by
      intro x hx
      simp only [runEntries, ← hstep]
      exact ihmono x (processEntry_processed_mono a st e.1 e.2 hx)
    have htr : (runEntries a st (e :: rest)).2 = step.2 :: (runEntries a step.1 rest).2 := by
      simp only [runEntries, ← hstep]
    have hst : (runEntries a st (e :: rest)).1 = (runEntries a step.1 rest).1 := by
      simp only [runEntries, ← hstep]
    refine ⟨hmono, ?_, ?_, ?_⟩
    · intro i hi
      rw [htr, dispatched_ids_cons] at hi
      rw [hst]
      by_cases hd : dispatched step.2.outcome = true
      · rw [if_pos hd] at hi
        rcases List.mem_cons.mp hi with hhead | htail
        · subst hhead
          rw [processEntry_rowid]
          refine ⟨processEntry_dispatched_fresh a st e.1 e.2 hd, ?_⟩
          exact ihmono _ (processEntry_mem_processed a st e.1 e.2)
        · have := ihfresh i htail
          refine ⟨fun hin => this.1 (processEntry_processed_mono a st e.1 e.2 hin), this.2⟩
      · rw [if_neg hd] at hi
        have := ihfresh i hi
        exact ⟨fun hin => this.1 (processEntry_processed_mono a st e.1 e.2 hin), this.2⟩
    · rw [htr, dispatched_ids_cons]
      by_cases hd : dispatched step.2.outcome = true
      · rw [if_pos hd]
        refine List.Nodup.cons ?_ ihnodup
        intro hmem
        have hfresh := ihfresh _ hmem
        apply hfresh.1
        rw [processEntry_rowid]
        exact processEntry_mem_processed a st e.1 e.2
      · rw [if_neg hd]
        exact ihnodup
    · intro r hr
      rw [htr] at hr
      rw [hst]
      rcases List.mem_cons.mp hr with hhead | htail
      · subst hhead
        rw [processEntry_rowid]
        exact ihmono _ (processEntry_mem_processed a st e.1 e.2)
      · exact ihmem r htail

theorem runCycles_dispatch_inv (a : List String) :
    ∀ (cycles : List ((Nat → Oracle) × List MessageRow)) (st : BotState),
      (∀ x ∈ st.processed_messages, x ∈ (runCycles a st cycles).1.processed_messages) ∧
      (∀ i ∈ dispatched_ids (runCycles a st cycles).2,
        i ∉ st.processed_messages ∧ i ∈ (runCycles a st cycles).1.processed_messages) ∧
      (dispatched_ids (runCycles a st cycles).2).Nodup ∧
      (∀ r ∈ (runCycles a st cycles).2, r.rowid ∈ (runCycles a st cycles).1.processed_messages) := by
  intro cycles
  induction cycles with
  | nil =>
    intro st
    refine ⟨fun x hx => hx, fun i hi => absurd hi (by simp [runCycles, dispatched_ids]), by
      simp [runCycles, dispatched_ids], fun r hr => absurd hr (by simp [runCycles])⟩
  | cons c rest ih =>
    intro st
    have hCyc := runEntries_dispatch_inv a
      ((get_recent_messages c.2 st.last_rowid).enum.map (fun p => (c.1 p.1, p.2))) st
    set cyc := runCycle a c.1 c.2 st with hcyc
    obtain ⟨cmono, cfresh, cnodup, cmem⟩ := hCyc
    obtain ⟨ihmono, ihfresh, ihnodup, ihmem⟩ := ih cyc.1
    have htr : (runCycles a st (c :: rest)).2 = cyc.2 ++ (runCycles a cyc.1 rest).2 := by
      simp only [runCycles, ← hcyc]
    have hst : (runCycles a st (c :: rest)).1 = (runCycles a cyc.1 rest).1 := by
      simp only [runCycles, ← hcyc]
    have hcyc2 : cyc.2 = (runEntries a st
        ((get_recent_messages c.2 st.last_rowid).enum.map (fun p => (c.1 p.1, p.2)))).2 := by
      rw [hcyc]; rfl
    have hcyc1 : cyc.1 = (runEntries a st
        ((get_recent_messages c.2 st.last_rowid).enum.map (fun p => (c.1 p.1, p.2)))).1 := by
      rw [hcyc]; rfl
    refine ⟨?_, ?_, ?_, ?_⟩
    · intro x hx
      rw [hst]
      apply ihmono
      rw [hcyc1]
      exact cmono x hx
    · intro i hi
      rw [htr, dispatched_ids_append, List.mem_append] at hi
      rw [hst]
      rcases hi with h1 | h2
      · rw [hcyc2] at h1
        have := cfresh i h1
        rw [← hcyc1] at this
        exact ⟨this.1, ihmono i this.2⟩
      · have := ihfresh i h2
        refine ⟨fun hin => this.1 ?_, this.2⟩
        rw [hcyc1]
        exact cmono i hin
    · rw [htr, dispatched_ids_append]
      rw [List.nodup_append]
      refine ⟨by rw [hcyc2] at *; exact cnodup, ihnodup, ?_⟩
      intro i h1 h2
      have hin : i ∈ cyc.1.processed_messages := by
        rw [hcyc2] at h1
        rw [hcyc1]
        exact (cfresh i h1).2
      exact (ihfresh i h2).1 hin
    · intro r hr
      rw [htr, List.mem_append] at hr
      rw [hst]
      rcases hr with h1 | h2
      · apply ihmono
        rw [hcyc1]
        rw [hcyc2] at h1
        exact cmem r h1
      · exact ihmem r h2

/-- C3: over a whole run from the initial state, no rowid is dispatched to the
backend or the command handler more than once, and every inspected entry's
rowid is in the processed set afterwards (it is added on first inspection,
whatever branch is then taken). -/
theorem at_most_once_dispatch (a : List String) (store : List MessageRow)
    (cycles : List ((Nat → Oracle) × List MessageRow)) :
    (dispatched_ids (runCycles a (initState store) cycles).2).Nodup ∧
    (∀ r ∈ (runCycles a (initState store) cycles).2,
      r.rowid ∈ (runCycles a (initState store) cycles).1.processed_messages) ∧
    (∀ (st : BotState) (o : Oracle) (m : Msg),
      m.rowid ∈ (processEntry a st o m).1.processed_messages) := by
  obtain ⟨_, _, hnodup, hmem⟩ := runCycles_dispatch_inv a cycles (initState store)
  exact ⟨hnodup, hmem, fun st o m => processEntry_mem_processed a st o m⟩

theorem at_most_once_dispatch_witness :
    (dispatched_ids (runCycles [] (initState [])
      [(fun _ => ⟨0, .timedOut, .completed⟩,
        [⟨1, some "hello", false, 0, some "a", none⟩])]).2).Nodup ∧
    (1 : Nat) ∈ (runCycles [] (initState [])
      [(fun _ => ⟨0, .timedOut, .completed⟩,
        [⟨1, some "hello", false, 0, some "a", none⟩])]).1.processed_messages ∧
    (2 : Nat) ∈ (processEntry [] (initState []) ⟨0, .timedOut, .completed⟩
      ⟨2, "hey", some "a", none⟩).1.processed_messages := by
  have h := at_most_once_dispatch [] []
    [(fun _ => ⟨0, .timedOut, .completed⟩, [⟨1, some "hello", false, 0, some "a", none⟩])]
  refine ⟨h.1, ?_, h.2.2 (initState []) ⟨0, .timedOut, .completed⟩ ⟨2, "hey", some "a", none⟩⟩
  exact h.2.1
    ⟨1, .chat, some [SYSTEM_TURN, ⟨.user, "hello"⟩],
      ["⏱️ Response took too long. Please try again."]⟩ (by decide)
theorem insert_by_rowid_perm (m : MessageRow) :
    ∀ l : List MessageRow, List.Perm (insert_by_rowid m l) (m :: l) := by
  intro l
  induction l with
  | nil => exact List.Perm.refl _
  | cons x xs ih =>
    unfold insert_by_rowid
    split
    · exact List.Perm.refl _
    · exact (ih.cons x).trans (List.Perm.swap m x xs)

theorem sort_by_rowid_perm :
    ∀ l : List MessageRow, List.Perm (sort_by_rowid l) l := by
  intro l
  induction l with
  | nil => exact List.Perm.refl _
  | cons x xs ih =>
    unfold sort_by_rowid
    exact (insert_by_rowid_perm x (sort_by_rowid xs)).trans (ih.cons x)

theorem insert_by_rowid_pairwise (m : MessageRow) :
    ∀ l : List MessageRow,
      List.Pairwise (fun x y : MessageRow => x.rowid ≤ y.rowid) l →
      List.Pairwise (fun x y : MessageRow => x.rowid ≤ y.rowid) (insert_by_rowid m l) := by
  intro l
  induction l with
  | nil => intro _; simp [insert_by_rowid]
  | cons x xs ih =>
    intro hp
    unfold insert_by_rowid
    split
    · rename_i hle
      refine List.Pairwise.cons ?_ hp
      intro y hy
      rcases List.mem_cons.mp hy with rfl | hys
      · exact hle
      · exact le_trans hle (List.rel_of_pairwise_cons hp hys)
    · rename_i hgt
      have hxm : x.rowid ≤ m.rowid := le_of_not_le hgt
      refine List.Pairwise.cons ?_ (ih hp.of_cons)
      intro y hy
      have hy2 : y ∈ m :: xs := (insert_by_rowid_perm m xs).subset hy
      rcases List.mem_cons.mp hy2 with rfl | hys
      · exact hxm
      · exact List.rel_of_pairwise_cons hp hys

theorem sort_by_rowid_pairwise :
    ∀ l : List MessageRow,
      List.Pairwise (fun x y : MessageRow => x.rowid ≤ y.rowid) (sort_by_rowid l) := by
  intro l
  induction l with
  | nil => simp [sort_by_rowid]
  | cons x xs ih =>
    unfold sort_by_rowid
    exact insert_by_rowid_pairwise x (sort_by_rowid xs) ih

theorem get_recent_messages_sorted_le (store : List MessageRow) (since : Nat) :
    List.Pairwise (fun a b : Msg => a.rowid ≤ b.rowid) (get_recent_messages store since) := by
  unfold get_recent_messages
  rw [List.pairwise_map]
  exact List.Pairwise.sublist (List.take_sublist 50 _) (sort_by_rowid_pairwise _)

theorem get_recent_messages_gt (store : List MessageRow) (since : Nat) :
    ∀ x ∈ get_recent_messages store since, since < x.rowid := by
  intro x hx
  unfold get_recent_messages at hx
  rcases List.mem_map.mp hx with ⟨r, hr, rfl⟩
  have hr2 : r ∈ sort_by_rowid (store.filter (row_wanted since)) :=
    (List.take_sublist 50 _).subset hr
  have hr3 : r ∈ store.filter (row_wanted since) := (sort_by_rowid_perm _).subset hr2
  have hw : row_wanted since r = true := List.of_mem_filter hr3
  unfold row_wanted at hw
  simp only [Bool.and_eq_true, decide_eq_true_eq] at hw
  exact hw.1.1

theorem get_recent_messages_rowids_nodup (store : List MessageRow) (since : Nat)
    (h : (store.map (fun r => r.rowid)).Nodup) :
    ((get_recent_messages store since).map (fun m => m.rowid)).Nodup := by
  unfold get_recent_messages
  rw [List.map_map]
  have hcomp : ((fun m : Msg => m.rowid) ∘ to_msg) = (fun r : MessageRow => r.rowid) := rfl
  rw [hcomp]
  have h1 : ((store.filter (row_wanted since)).map (fun r => r.rowid)).Nodup :=
    h.sublist ((List.filter_sublist _).map _)
  have h2 : ((sort_by_rowid (store.filter (row_wanted since))).map
      (fun r => r.rowid)).Nodup :=
    (((sort_by_rowid_perm _).map _).symm.nodup h1)
  exact h2.sublist ((List.take_sublist 50 _).map _)

theorem get_recent_messages_strict (store : List MessageRow) (since : Nat)
    (h : (store.map (fun r => r.rowid)).Nodup) :
    List.Pairwise (· < ·) ((get_recent_messages store since).map (fun m => m.rowid)) := by
  have hle : List.Pairwise (· ≤ ·)
      ((get_recent_messages store since).map (fun m => m.rowid)) :=
    (List.pairwise_map).mpr (get_recent_messages_sorted_le store since)
  have hne : List.Pairwise (· ≠ ·)
      ((get_recent_messages store since).map (fun m => m.rowid)) :=
    get_recent_messages_rowids_nodup store since h
  exact (hle.and hne).imp (fun hab => lt_of_le_of_ne hab.1 hab.2)
theorem processEntry_last_rowid (a : List String) (st : BotState) (o : Oracle) (m : Msg) :
    (processEntry a st o m).1.last_rowid =
      if st.processed_messages.contains m.rowid then st.last_rowid
      else max st.last_rowid m.rowid := by
  unfold processEntry
  repeat' (first | split | dsimp only)

theorem processEntry_state_eq_of_dup (a : List String) (st : BotState) (o : Oracle) (m : Msg)
    (h : st.processed_messages.contains m.rowid = true) :
    (processEntry a st o m).1 = st := by
  unfold processEntry
  rw [if_pos h]

theorem list_max_le_iff {l : List Nat} {n : Nat} :
    list_max l ≤ n ↔ ∀ x ∈ l, x ≤ n := by
  induction l with
  | nil => simp [list_max]
  | cons x xs ih =>
    simp only [list_max, List.foldr_cons, Nat.max_le, List.mem_cons]
    constructor
    · rintro ⟨h1, h2⟩ y (rfl | hy)
      · exact h1
      · exact (ih.mp h2) y hy
    · intro h
      exact ⟨h x (Or.inl rfl), ih.mpr (fun y hy => h y (Or.inr hy))⟩

theorem le_list_max {l : List Nat} {x : Nat} (h : x ∈ l) : x ≤ list_max l :=
  list_max_le_iff.mp (le_refl _) x h

theorem list_max_mem : ∀ {l : List Nat}, l ≠ [] → list_max l ∈ l := by
  intro l
  induction l with
  | nil => intro h; exact absurd rfl h
  | cons x xs ih =>
    intro _
    cases xs with
    | nil => simp [list_max]
    | cons y ys =>
      rcases Nat.le_total x (list_max (y :: ys)) with hle | hge
      · have : list_max (x :: y :: ys) = list_max (y :: ys) := by
          simp only [list_max, List.foldr_cons] at *
          omega
        rw [this]
        exact List.mem_cons_of_mem _ (ih (by simp))
      · have : list_max (x :: y :: ys) = x := by
          simp only [list_max, List.foldr_cons] at *
          omega
        rw [this]
        exact List.mem_cons_self _ _

theorem runEntries_watermark (a : List String) :
    ∀ (es : List (Oracle × Msg)) (st : BotState),
      (∀ i ∈ st.processed_messages, i ≤ st.last_rowid) →
      (runEntries a st es).1.last_rowid =
        max st.last_rowid (list_max (es.map (fun e => e.2.rowid))) ∧
      (∀ i ∈ (runEntries a st es).1.processed_messages,
        i ≤ (runEntries a st es).1.last_rowid) := by
  intro es
  induction es with
  | nil =>
    intro st hinv
    exact ⟨by simp [runEntries, list_max], fun i hi => hinv i hi⟩
  | cons e rest ih =>
    intro st hinv
    have hfin1 : (runEntries a st (e :: rest)).1 =
        (runEntries a (processEntry a st e.1 e.2).1 rest).1 := by
      simp only [runEntries]
    by_cases hc : st.processed_messages.contains e.2.rowid = true
    · have hmem : e.2.rowid ∈ st.processed_messages := by simpa using hc
      have hle : e.2.rowid ≤ st.last_rowid := hinv _ hmem
      have hstep : (processEntry a st e.1 e.2).1 = st := processEntry_state_eq_of_dup a st e.1 e.2 hc
      obtain ⟨ihmax, ihinv⟩ := ih (processEntry a st e.1 e.2).1 (by rw [hstep]; exact hinv)
      rw [hfin1]
      refine ⟨?_, ihinv⟩
      rw [ihmax, hstep]
      simp only [List.map_cons, list_max, List.foldr_cons]
      omega
    · have hlast : (processEntry a st e.1 e.2).1.last_rowid = max st.last_rowid e.2.rowid := by
        rw [processEntry_last_rowid, if_neg (by simpa using hc)]
      have hproc : (processEntry a st e.1 e.2).1.processed_messages =
          e.2.rowid :: st.processed_messages := by
        rw [processEntry_processed_eq, if_neg (by simpa using hc)]
      have hinv2 : ∀ i ∈ (processEntry a st e.1 e.2).1.processed_messages,
          i ≤ (processEntry a st e.1 e.2).1.last_rowid := by
        intro i hi
        rw [hproc] at hi
        rw [hlast]
        rcases List.mem_cons.mp hi with rfl | hi2
        · omega
        · have := hinv i hi2
          omega
      obtain ⟨ihmax, ihinv⟩ := ih (processEntry a st e.1 e.2).1 hinv2
      rw [hfin1]
      refine ⟨?_, ihinv⟩
      rw [ihmax, hlast]
      simp only [List.map_cons, list_max, List.foldr_cons]
      omega

theorem runEntries_trace_rowids (a : List String) :
    ∀ (es : List (Oracle × Msg)) (st : BotState),
      (runEntries a st es).2.map (fun r => r.rowid) = es.map (fun e => e.2.rowid) := by
  intro es
  induction es with
  | nil => intro st; simp [runEntries]
  | cons e rest ih =>
    intro st
    simp only [runEntries, List.map_cons]
    rw [processEntry_rowid, ih]

theorem runEntries_last_mono (a : List String) :
    ∀ (es : List (Oracle × Msg)) (st : BotState),
      st.last_rowid ≤ (runEntries a st es).1.last_rowid := by
  intro es
  induction es with
  | nil => intro st; exact le_refl _
  | cons e rest ih =>
    intro st
    have h1 : st.last_rowid ≤ (processEntry a st e.1 e.2).1.last_rowid := by
      rw [processEntry_last_rowid]
      split
      · exact le_refl _
      · exact Nat.le_max_left _ _
    calc st.last_rowid ≤ (processEntry a st e.1 e.2).1.last_rowid := h1
      _ ≤ (runEntries a (processEntry a st e.1 e.2).1 rest).1.last_rowid := ih _
      _ = (runEntries a st (e :: rest)).1.last_rowid := by simp only [runEntries]

theorem runCycles_last_mono (a : List String) :
    ∀ (cycles : List ((Nat → Oracle) × List MessageRow)) (st : BotState),
      st.last_rowid ≤ (runCycles a st cycles).1.last_rowid := by
  intro cycles
  induction cycles with
  | nil => intro st; exact le_refl _
  | cons c rest ih =>
    intro st
    calc st.last_rowid ≤ (runCycle a c.1 c.2 st).1.last_rowid := runEntries_last_mono a _ st
      _ ≤ (runCycles a (runCycle a c.1 c.2 st).1 rest).1.last_rowid := ih _
      _ = (runCycles a st (c :: rest)).1.last_rowid := by simp only [runCycles]

theorem get_latest_rowid_ge (store : List MessageRow) :
    ∀ r ∈ store, r.rowid ≤ get_latest_rowid store := by
  induction store with
  | nil => intro r hr; exact absurd hr (by simp)
  | cons x xs ih =>
    intro r hr
    rcases List.mem_cons.mp hr with rfl | hr2
    · simp only [get_latest_rowid, List.foldr_cons]
      omega
    · have := ih r hr2
      simp only [get_latest_rowid, List.foldr_cons] at *
      omega

theorem get_latest_rowid_attained :
    ∀ {store : List MessageRow}, store ≠ [] →
      ∃ r ∈ store, r.rowid = get_latest_rowid store := by
  intro store
  induction store with
  | nil => intro h; exact absurd rfl h
  | cons x xs ih =>
    intro _
    cases xs with
    | nil =>
      refine ⟨x, List.mem_cons_self _ _, ?_⟩
      simp [get_latest_rowid]
    | cons y ys =>
      rcases ih (by simp) with ⟨r, hr, hre⟩
      rcases Nat.le_total x.rowid (get_latest_rowid (y :: ys)) with hle | hge
      · refine ⟨r, List.mem_cons_of_mem _ hr, ?_⟩
        simp only [get_latest_rowid, List.foldr_cons] at *
        omega
      · refine ⟨x, List.mem_cons_self _ _, ?_⟩
        simp only [get_latest_rowid, List.foldr_cons] at *
        omega
theorem enum_oracle_rowids (os : Nat → Oracle) (batch : List Msg) :
    (batch.enum.map (fun p => (os p.1, p.2))).map (fun e : Oracle × Msg => e.2.rowid) =
      batch.map (fun m => m.rowid) := by
  rw [List.map_map]
  have h1 : ((fun e : Oracle × Msg => e.2.rowid) ∘ (fun p : Nat × Msg => (os p.1, p.2))) =
      (fun p : Nat × Msg => p.2.rowid) := rfl
  rw [h1]
  have h2 : (fun p : Nat × Msg => p.2.rowid) = (fun m : Msg => m.rowid) ∘ Prod.snd := rfl
  rw [h2, ← List.map_map, List.enum_map_snd]

theorem runCycle_trace_rowids (a : List String) (os : Nat → Oracle)
    (store : List MessageRow) (st : BotState) :
    (runCycle a os store st).2.map (fun r => r.rowid) =
      (get_recent_messages store st.last_rowid).map (fun m => m.rowid) := by
  unfold runCycle
  rw [runEntries_trace_rowids, enum_oracle_rowids]

theorem runCycle_watermark (a : List String) (os : Nat → Oracle)
    (store : List MessageRow) (st : BotState)
    (hinv : ∀ i ∈ st.processed_messages, i ≤ st.last_rowid) :
    (runCycle a os store st).1.last_rowid =
      max st.last_rowid
        (list_max ((get_recent_messages store st.last_rowid).map (fun m => m.rowid))) := by
  unfold runCycle
  rw [(runEntries_watermark a _ st hinv).1, enum_oracle_rowids]

/-- C4: the fetched batch is strictly ascending in rowid and past the
watermark; the cycle processes it in that order; afterwards the watermark
equals the batch's maximum rowid (unchanged on an empty batch); the watermark
never decreases over a run; and at startup it is the store's maximum rowid. -/
theorem watermark_tracking (store : List MessageRow) (since : Nat) (a : List String)
    (os : Nat → Oracle) (st : BotState)
    (cycles : List ((Nat → Oracle) × List MessageRow))
    (hnodup : (store.map (fun r => r.rowid)).Nodup)
    (hinv : ∀ i ∈ st.processed_messages, i ≤ st.last_rowid) :
    List.Pairwise (· < ·) ((get_recent_messages store since).map (fun m => m.rowid)) ∧
    (∀ x ∈ get_recent_messages store st.last_rowid, st.last_rowid < x.rowid) ∧
    ((runCycle a os store st).2.map (fun r => r.rowid) =
      (get_recent_messages store st.last_rowid).map (fun m => m.rowid)) ∧
    (get_recent_messages store st.last_rowid = [] →
      (runCycle a os store st).1.last_rowid = st.last_rowid) ∧
    (get_recent_messages store st.last_rowid ≠ [] →
      (runCycle a os store st).1.last_rowid =
        list_max ((get_recent_messages store st.last_rowid).map (fun m => m.rowid))) ∧
    st.last_rowid ≤ (runCycles a st cycles).1.last_rowid ∧
    (initState store).last_rowid = get_latest_rowid store ∧
    (∀ r ∈ store, r.rowid ≤ get_latest_rowid store) ∧
    (store ≠ [] → ∃ r ∈ store, r.rowid = get_latest_rowid store) := by
  refine ⟨get_recent_messages_strict store since hnodup,
    get_recent_messages_gt store _,
    runCycle_trace_rowids a os store st, ?_, ?_,
    runCycles_last_mono a cycles st, rfl,
    get_latest_rowid_ge store,
    fun hne => get_latest_rowid_attained hne⟩
  · intro hempty
    rw [runCycle_watermark a os store st hinv, hempty]
    simp [list_max]
  · intro hne
    rw [runCycle_watermark a os store st hinv]
    rcases List.exists_mem_of_ne_nil _ hne with ⟨x, hx⟩
    have hgt : st.last_rowid < x.rowid := get_recent_messages_gt store _ x hx
    have hle : x.rowid ≤
        list_max ((get_recent_messages store st.last_rowid).map (fun m => m.rowid)) :=
      le_list_max (List.mem_map_of_mem _ hx)
    omega

theorem watermark_tracking_witness :
    List.Pairwise (· < ·) ((get_recent_messages watermark_demo_store 0).map (fun m => m.rowid)) ∧
    (∀ x ∈ get_recent_messages watermark_demo_store (initState []).last_rowid,
      (initState []).last_rowid < x.rowid) ∧
    ((runCycle [] watermark_demo_oracle watermark_demo_store (initState [])).2.map
        (fun r => r.rowid) =
      (get_recent_messages watermark_demo_store (initState []).last_rowid).map
        (fun m => m.rowid)) ∧
    ((runCycle [] watermark_demo_oracle watermark_demo_store (initState [])).1.last_rowid =
      list_max ((get_recent_messages watermark_demo_store (initState []).last_rowid).map
        (fun m => m.rowid))) ∧
    (initState []).last_rowid ≤
      (runCycles [] (initState [])
        [(watermark_demo_oracle, watermark_demo_store)]).1.last_rowid ∧
    (initState watermark_demo_store).last_rowid = get_latest_rowid watermark_demo_store ∧
    (∃ r ∈ watermark_demo_store, r.rowid = get_latest_rowid watermark_demo_store) := by
  have h := watermark_tracking watermark_demo_store 0 [] watermark_demo_oracle (initState [])
    [(watermark_demo_oracle, watermark_demo_store)] (by decide) (by simp [initState])
  exact ⟨h.1, h.2.1, h.2.2.1, h.2.2.2.2.1 (by decide), h.2.2.2.2.2.1,
    h.2.2.2.2.2.2.1, h.2.2.2.2.2.2.2.2 (by decide)⟩
